import Mathlib

/-!
Shallow embedding of `quirkysat` (src/quirkysat/model.py, src/quirkysat/clause.py).

Clauses are functors: they carry private mutable state and, when invoked on an
input, return a Python value (coerced to a boolean by Python truthiness) and an
updated state.  Models own an ordered list of `(clause, weight)` pairs and a
`required_score` threshold.  The abandoned asyncio variants are out of scope.
-/

namespace Quirkysat

variable {α σ : Type}

/-- Python runtime values that a clause invocation may return. -/
inductive PyVal : Type
  | none
  | bool (b : Bool)
  | int (n : Int)
  | str (s : String)
deriving DecidableEq

/-- Python truthiness, as applied by `if clause[0](*args)` / `if not clause[0](*args)`:
`None` is falsy, booleans are themselves, numbers are truthy iff nonzero,
strings are truthy iff non-empty. -/
def truthy : PyVal → Bool
  | PyVal.none => false
  | PyVal.bool b => b
  | PyVal.int n => n != 0
  | PyVal.str s => s != ""

/-- A clause functor (`quirkysat.clause.Clause`): private state `st` and a
transition `run` that maps the current state and the model input to the
returned Python value and the successor state.  A pure predicate is the
special case whose `run` leaves the state unchanged. -/
structure Clause (α σ : Type) where
  st : σ
  run : σ → α → PyVal × σ

/-- The boolean outcome of invoking a clause once, from its current state. -/
def Clause.eval (c : Clause α σ) (x : α) : Bool :=
  truthy (c.run c.st x).1

/-- The clause after one invocation on input `x`: same transition function,
state advanced one step. -/
def Clause.advance (c : Clause α σ) (x : α) : Clause α σ :=
  ⟨(c.run c.st x).2, c.run⟩

/-- Model state shared by `WeightedModel`, `SimpleModel` and `AbsoluteModel`:
the `_clauses` list of `(clause, weight)` pairs and the `required_score`
threshold. -/
structure WModel (α σ : Type) where
  clauses : List (Clause α σ × Int)
  required_score : Int

/-- Embeds `WeightedModel.push_clause(clause, weight)`: `self._clauses += [(clause, weight)]`. -/
def pushClause (m : WModel α σ) (c : Clause α σ) (w : Int) : WModel α σ :=
  { m with clauses := m.clauses ++ [(c, w)] }

/-- Embeds `WeightedModel.__init__(clauses, required_score=None)`: push every
`(clause, weight)` pair, store `required_score`, and if it is falsy
(`None` or `0`) replace it by the sum of the stored weights. -/
def WeightedModel.init (cs : List (Clause α σ × Int)) (required_score : Option Int) :
    WModel α σ :=
  let m1 := cs.foldl (fun m p => pushClause m p.1 p.2) ⟨[], 0⟩
  match required_score with
  | Option.none => { m1 with required_score := (m1.clauses.map (fun p => p.2)).sum }
  | Option.some r =>
      if r = 0 then { m1 with required_score := (m1.clauses.map (fun p => p.2)).sum }
      else { m1 with required_score := r }

/-- Embeds the loop of `WeightedModel.score`: fold over `_clauses` in order, invoking each clause
once and adding its weight when the returned value is truthy; returns the
total together with the clause list after all the state updates. -/
def scoreSt : List (Clause α σ × Int) → α → Int × List (Clause α σ × Int)
  | [], _ => (0, [])
  | (c, w) :: rest, x =>
      let r := c.run c.st x
      let s := scoreSt rest x
      ((if truthy r.1 then w else 0) + s.1, (⟨r.2, c.run⟩, w) :: s.2)

/-- Embeds `WeightedModel.score(*args)` on a model value. -/
def WModel.score (m : WModel α σ) (x : α) : Int × WModel α σ :=
  let r := scoreSt m.clauses x
  (r.1, { m with clauses := r.2 })

/-- Embeds `WeightedModel.__call__(*args)`: `self.score(*args) >= self.required_score`. -/
def WModel.call (m : WModel α σ) (x : α) : Bool × WModel α σ :=
  let r := m.score x
  (decide (m.required_score ≤ r.1), r.2)

/-- Embeds the loop of `AbsoluteModel.__call__`: walk `_clauses` in order; at the first clause
whose result is falsy, return `False` immediately, leaving every later clause
uninvoked; return `True` once the list is exhausted. -/
def absCallSt : List (Clause α σ × Int) → α → Bool × List (Clause α σ × Int)
  | [], _ => (true, [])
  | (c, w) :: rest, x =>
      let r := c.run c.st x
      if truthy r.1 then
        let t := absCallSt rest x
        (t.1, (⟨r.2, c.run⟩, w) :: t.2)
      else (false, (⟨r.2, c.run⟩, w) :: rest)

/-- Embeds `AbsoluteModel.__call__(*args)` on a model value. -/
def WModel.absCall (m : WModel α σ) (x : α) : Bool × WModel α σ :=
  let r := absCallSt m.clauses x
  (r.1, { m with clauses := r.2 })

/-- Python runtime faults raised during construction. -/
inductive PyErr : Type
  | nameError (missing : String)
deriving DecidableEq

/-- Embeds `SimpleModel.__init__(clauses, required_score=None)`: every clause is
pushed with weight 1; `maximum_score = len(clauses)` is bound but never used;
then `self.required_score = required_score`; if that is falsy the code
executes `self.required_score = maximum_clauses`, and `maximum_clauses` is an
undefined name, so a `NameError` is raised; likewise on the clamp branch
`if self.required_score > len(clauses)`. -/
def SimpleModel.init (cs : List (Clause α σ)) (required_score : Option Int) :
    Except PyErr (WModel α σ) :=
  let m1 := cs.foldl (fun m c => pushClause m c 1) (⟨[], 0⟩ : WModel α σ)
  match required_score with
  | Option.none => Except.error (PyErr.nameError "maximum_clauses")
  | Option.some r =>
      if r = 0 then Except.error (PyErr.nameError "maximum_clauses")
      else if (cs.length : Int) < r then Except.error (PyErr.nameError "maximum_clauses")
      else Except.ok { m1 with required_score := r }

/-- Embeds `AbsoluteModel.__init__(clauses)`: `super().__init__(clauses, required_score=len(clauses))`. -/
def AbsoluteModel.init (cs : List (Clause α σ)) : Except PyErr (WModel α σ) :=
  SimpleModel.init cs (Option.some (cs.length : Int))

/-- The reachable states of an `AbsoluteModel`: a successful construction,
followed by any sequence of inherited `push_clause` operations. -/
inductive AbsReachable : WModel α σ → Prop
  | init (cs : List (Clause α σ)) (m : WModel α σ) :
      AbsoluteModel.init cs = Except.ok m → AbsReachable m
  | push (m : WModel α σ) (c : Clause α σ) (w : Int) :
      AbsReachable m → AbsReachable (pushClause m c w)

/-- A stateless clause that always returns `True`. -/
def demoTrue : Clause Nat Nat :=
  ⟨0, fun s _ => (PyVal.bool true, s)⟩

/-- A stateless clause that always returns `False`. -/
def demoFalse : Clause Nat Nat :=
  ⟨0, fun s _ => (PyVal.bool false, s)⟩

/-- A stateful clause that increments its counter on every invocation and
returns `True`. -/
def demoCounter : Clause Nat Nat :=
  ⟨0, fun s _ => (PyVal.bool true, s + 1)⟩

/-- A clause whose body falls through without a `return`, so the call yields
`None`. -/
def demoNoneClause : Clause Nat Nat :=
  ⟨0, fun s _ => (PyVal.none, s)⟩

/-- The clause list of the dissected `AbsoluteModel` used as a concrete
witness: a failing clause followed by a stateful counter clause. -/
def demoAbsList : List (Clause Nat Nat × Int) :=
  [(demoFalse, 1), (demoCounter, 1)]

lemma foldl_pushW_clauses (cs : List (Clause α σ × Int)) (m : WModel α σ) :
    (cs.foldl (fun m p => pushClause m p.1 p.2) m).clauses = m.clauses ++ cs := by
  induction cs generalizing m with
  | nil => simp
  | cons p rest ih =>
      simp only [List.foldl_cons, ih]
      simp [pushClause]

lemma foldl_push1_clauses (cs : List (Clause α σ)) (m : WModel α σ) :
    (cs.foldl (fun m c => pushClause m c 1) m).clauses
      = m.clauses ++ cs.map (fun c => (c, 1)) := by
  induction cs generalizing m with
  | nil => simp
  | cons c rest ih =>
      simp only [List.foldl_cons, ih]
      simp [pushClause]

lemma scoreSt_spec (cs : List (Clause α σ × Int)) (x : α) :
    scoreSt cs x
      = ((cs.map (fun p => if p.1.eval x then p.2 else 0)).sum,
         cs.map (fun p => (p.1.advance x, p.2))) := by
  induction cs with
  | nil => simp [scoreSt]
  | cons p rest ih =>
      obtain ⟨c, w⟩ := p
      simp [scoreSt, ih, Clause.eval, Clause.advance]

lemma absCallSt_true_iff (cs : List (Clause α σ × Int)) (x : α) :
    (absCallSt cs x).1 = true ↔ ∀ p ∈ cs, p.1.eval x = true := by
  induction cs with
  | nil => simp [absCallSt]
  | cons p rest ih =>
      obtain ⟨c, w⟩ := p
      by_cases h : truthy (c.run c.st x).1 = true
      · simp [absCallSt, h, ih, Clause.eval]
      · simp [absCallSt, h, Clause.eval]

lemma absCallSt_firstFail (cs : List (Clause α σ × Int)) (x : α) (i : Nat)
    (hi : i < cs.length)
    (hfail : (cs.get ⟨i, hi⟩).1.eval x = false)
    (hpre : ∀ j (hj : j < i), (cs.get ⟨j, hj.trans hi⟩).1.eval x = true) :
    absCallSt cs x
      = (false, (cs.take (i + 1)).map (fun p => (p.1.advance x, p.2)) ++ cs.drop (i + 1)) := by
  induction cs generalizing i with
  | nil => exact absurd hi (Nat.not_lt_zero i)
  | cons p rest ih =>
      obtain ⟨c, w⟩ := p
      cases i with
      | zero =>
          have h0 : truthy (c.run c.st x).1 = false := hfail
          simp [absCallSt, h0, Clause.advance]
      | succ j =>
          have h0 : truthy (c.run c.st x).1 = true := hpre 0 (Nat.succ_pos j)
          have hj : j < rest.length := Nat.lt_of_succ_lt_succ hi
          have hrest := ih j hj hfail (fun k hk => hpre (k + 1) (Nat.succ_lt_succ hk))
          simp [absCallSt, h0, hrest, Clause.advance]

/-- C1 (code evidence): constructing a `SimpleModel` from a non-empty clause
list without an explicit `required_score` does not produce a model whose
`required_score` is the clause count; it raises `NameError` because the
default branch reads the undefined name `maximum_clauses` (the code binds
`maximum_score` instead). -/
theorem simpleModel_default_raises_nameError :
    SimpleModel.init [demoTrue] Option.none
      = Except.error (PyErr.nameError "maximum_clauses") := rfl

/-- C2 (code evidence): constructing a `SimpleModel` with an explicit
`required_score` strictly greater than the clause count does not clamp it;
the clamp branch reads the undefined name `maximum_clauses` and raises
`NameError`. -/
theorem simpleModel_clamp_raises_nameError :
    SimpleModel.init [demoTrue] (Option.some 5)
      = Except.error (PyErr.nameError "maximum_clauses") := rfl

/-- C3: `AbsoluteModel.__call__` evaluates clauses in insertion order and
returns `False` at the first clause whose result is falsy; every clause up to
and including that one is invoked exactly once (state advanced), every later
clause is left untouched (its state unadvanced); and the call returns `True`
exactly when every clause, evaluated in sequence, returns a truthy value. -/
theorem absoluteModel_call_short_circuit (m : WModel α σ) (x : α) (i : Nat)
    (hi : i < m.clauses.length)
    (hfail : (m.clauses.get ⟨i, hi⟩).1.eval x = false)
    (hpre : ∀ j (hj : j < i), (m.clauses.get ⟨j, hj.trans hi⟩).1.eval x = true) :
    (m.absCall x).1 = false
    ∧ (m.absCall x).2.clauses
        = (m.clauses.take (i + 1)).map (fun p => (p.1.advance x, p.2))
          ++ m.clauses.drop (i + 1)
    ∧ ∀ (dm : WModel α σ) (y : α),
        (dm.absCall y).1 = true ↔ ∀ p ∈ dm.clauses, p.1.eval y = true := by
  have h := absCallSt_firstFail m.clauses x i hi hfail hpre
  refine ⟨?_, ?_, ?_⟩
  · simp [WModel.absCall, h]
  · simp [WModel.absCall, h]
  · intro dm y
    simpa [WModel.absCall] using absCallSt_true_iff dm.clauses y

/-- Witness for C3: in a model whose first clause fails and whose second
clause is a counter-incrementing stateful clause, the call returns `False`
and the counter clause is left exactly as it was (never invoked). -/
theorem absoluteModel_call_short_circuit_witness :
    ((⟨demoAbsList, 2⟩ : WModel Nat Nat).absCall 7).1 = false
    ∧ ((⟨demoAbsList, 2⟩ : WModel Nat Nat).absCall 7).2.clauses
        = (demoAbsList.take 1).map (fun p => (p.1.advance 7, p.2)) ++ demoAbsList.drop 1 := by
  have h := absoluteModel_call_short_circuit (⟨demoAbsList, 2⟩ : WModel Nat Nat) 7 0
    (by simp [demoAbsList]) rfl (fun j hj => absurd hj (Nat.not_lt_zero j))
  exact ⟨h.1, h.2.1⟩

/-- C4: `WeightedModel.score` invokes every clause exactly once, in insertion
order, with no early exit — afterwards every clause's state is advanced one
step — and returns the sum of the weights of the clauses whose result was
truthy, the falsy ones contributing zero. -/
theorem weightedModel_score_spec (m : WModel α σ) (x : α) :
    m.score x
      = ((m.clauses.map (fun p => if p.1.eval x then p.2 else 0)).sum,
         { m with clauses := m.clauses.map (fun p => (p.1.advance x, p.2)) }) := by
  simp [WModel.score, scoreSt_spec]

/-- C5 (counterexample): a reachable `AbsoluteModel` state — constructed from
one clause and then grown with the inherited `push_clause` — whose
`required_score` (still 1) differs from its clause count (now 2):
`push_clause` never updates the threshold. -/
theorem absoluteModel_invariant_counterexample :
    AbsReachable (pushClause (⟨[(demoTrue, 1)], 1⟩ : WModel Nat Nat) demoCounter 1)
    ∧ (pushClause (⟨[(demoTrue, 1)], 1⟩ : WModel Nat Nat) demoCounter 1).required_score
        ≠ ((pushClause (⟨[(demoTrue, 1)], 1⟩ : WModel Nat Nat) demoCounter 1).clauses.length : Int) := by
  constructor
  · exact AbsReachable.push _ _ _ (AbsReachable.init [demoTrue] _ rfl)
  · simp [pushClause]

/-- C5 (amended): immediately after a successful `AbsoluteModel` construction
(no `push_clause` yet), `required_score` equals the clause count. -/
theorem absoluteModel_init_threshold (cs : List (Clause α σ)) (m : WModel α σ)
    (h : AbsoluteModel.init cs = Except.ok m) :
    m.required_score = (m.clauses.length : Int) := by
  unfold AbsoluteModel.init SimpleModel.init at h
  by_cases hz : ((cs.length : Nat) = 0)
  · simp [hz] at h
  · have hz' : ((cs.length : Int) ≠ 0) := by exact_mod_cast hz
    have hlt : ¬ ((cs.length : Int) < (cs.length : Int)) := lt_irrefl _
    simp only [hz', hlt, if_false, if_neg, Except.ok.injEq] at h
    rw [← h]
    simp [foldl_push1_clauses]

/-- Witness for C5's amended theorem: the model built from one clause has
`required_score = 1 =` clause count. -/
theorem absoluteModel_init_threshold_witness :
    (⟨[(demoTrue, 1)], 1⟩ : WModel Nat Nat).required_score
      = ((⟨[(demoTrue, 1)], 1⟩ : WModel Nat Nat).clauses.length : Int) :=
  absoluteModel_init_threshold [demoTrue] _ rfl

/-- C6: a `WeightedModel` built from an empty clause list with no explicit
`required_score` has `required_score = 0`, and `__call__` returns `True` on
every input (score 0 is at least threshold 0). -/
theorem weightedModel_empty_default (x : α) :
    (WeightedModel.init ([] : List (Clause α σ × Int)) Option.none).required_score = 0
    ∧ ((WeightedModel.init ([] : List (Clause α σ × Int)) Option.none).call x).1 = true :=
  ⟨rfl, rfl⟩

/-- C7 (counterexample): a clause whose invocation returns no value (`None`)
is not treated as an implementation error — `score` silently coerces it to a
falsy result contributing zero and returns normally, and `__call__` simply
returns `False` against threshold 1. -/
theorem score_none_counterexample :
    WModel.score (⟨[(demoNoneClause, 5)], 1⟩ : WModel Nat Nat) 0
      = (0, (⟨[(demoNoneClause, 5)], 1⟩ : WModel Nat Nat))
    ∧ (WModel.call (⟨[(demoNoneClause, 5)], 1⟩ : WModel Nat Nat) 0).1 = false :=
  ⟨rfl, rfl⟩

/-- C7 (amended): a clause returning `None` is coerced by Python truthiness
to a failing clause, contributing exactly zero to `score`, with no error
raised. -/
theorem score_none_coerced (c : Clause α σ) (w : Int) (cs : List (Clause α σ × Int)) (x : α)
    (h : (c.run c.st x).1 = PyVal.none) :
    (scoreSt ((c, w) :: cs) x).1 = (scoreSt cs x).1 := by
  simp [scoreSt, h, truthy]

/-- Witness for C7's amended theorem: the `None`-returning clause with weight
5 contributes zero. -/
theorem score_none_coerced_witness :
    (scoreSt [(demoNoneClause, 5)] 0).1 = (scoreSt ([] : List (Clause Nat Nat × Int)) 0).1 :=
  score_none_coerced demoNoneClause 5 [] 0 rfl

/-- C8: `push_clause` appends the `(predicate, weight)` pair to the clause
sequence and leaves `required_score` unchanged, for every model state —
in particular for any model whose `required_score` was explicitly supplied
at construction; the threshold is never retroactively recomputed. -/
theorem pushClause_frame (m : WModel α σ) (c : Clause α σ) (w : Int) :
    (pushClause m c w).clauses = m.clauses ++ [(c, w)]
    ∧ (pushClause m c w).required_score = m.required_score :=
  ⟨rfl, rfl⟩

/-- C9: adding, via `push_clause`, a clause with non-negative weight whose
result is truthy on a given input never decreases `score` on that input,
whatever the other clauses return. -/
theorem score_monotone_pushClause (m : WModel α σ) (c : Clause α σ) (w : Int) (x : α)
    (hw : 0 ≤ w) (hc : c.eval x = true) :
    (WModel.score m x).1 ≤ (WModel.score (pushClause m c w) x).1 := by
  simp only [WModel.score, pushClause, scoreSt_spec]
  simp [hc]
  omega

/-- Witness for C9: pushing a weight-3 true clause onto a model whose single
clause fails raises the score from 0 to 3. -/
theorem score_monotone_pushClause_witness :
    (WModel.score (⟨[(demoFalse, 2)], 1⟩ : WModel Nat Nat) 0).1
      ≤ (WModel.score (pushClause (⟨[(demoFalse, 2)], 1⟩ : WModel Nat Nat) demoTrue 3) 0).1 :=
  score_monotone_pushClause _ demoTrue 3 0 (by decide) rfl

/-- C10: with a non-empty clause list of positive total weight, an explicitly
supplied `required_score` of 0 is treated as unset (`if not
self.required_score` is true for 0), so the threshold becomes the sum of the
clause weights, not 0. -/
theorem weightedModel_explicit_zero_threshold (cs : List (Clause α σ × Int))
    (hne : cs ≠ []) (hpos : 0 < (cs.map (fun p => p.2)).sum) :
    (WeightedModel.init cs (Option.some 0)).required_score = (cs.map (fun p => p.2)).sum
    ∧ (WeightedModel.init cs (Option.some 0)).required_score ≠ 0 := by
  have hcl : (WeightedModel.init cs (Option.some 0)).required_score
      = (cs.map (fun p => p.2)).sum := by
    simp [WeightedModel.init, foldl_pushW_clauses]
  exact ⟨hcl, by rw [hcl]; omega⟩

/-- Witness for C10: one clause of weight 2 and an explicit zero threshold
produce `required_score = 2`. -/
theorem weightedModel_explicit_zero_threshold_witness :
    (WeightedModel.init [(demoTrue, 2)] (Option.some 0)).required_score
        = ([(demoTrue, 2)].map (fun p => p.2)).sum
    ∧ (WeightedModel.init [(demoTrue, 2)] (Option.some 0)).required_score ≠ 0 :=
  weightedModel_explicit_zero_threshold [(demoTrue, 2)] (by simp) (by simp)

end Quirkysat
